import Mathlib

/-!
Shallow embedding of the build-orchestration core of the repository:
`scripts/lib/build-utils.mjs` (Process Supervisor `spawn`, Task Coordinator
`wait`/`serial`, Platform Build Pipeline `buildMain`, `buildNerdctlStub`) and
`scripts/download/lima.mjs` (`getLima`, `getAlpineLima`, `run`), plus a
spec-modelled Resource Fetcher (`download`/`getResource` live in
`scripts/lib/download.mjs`, which is not part of the analysed sources).

JavaScript promises are embedded as explicit values: a settled computation is
`Except JSError Unit`; a promise that may remain pending forever is
`Option (Except JSError Unit)` (`none` = never settles).  Side effects are
made explicit as event traces or state transformers.
-/

namespace RD

/-- A JavaScript error value: either `new Error(msg)` constructed by this
code, or an underlying system error object surfaced unchanged (e.g. the
`error` event payload of a child process that could not be started). -/
inductive JSError where
  | errMsg (msg : String)
  | system (err : String)
deriving DecidableEq, Repr

/-- Terminal observation of one child process: either the `exit` event fired
with `(code, signal)` (in Node exactly one of the two is non-null), or the
process could not be started and the `error` event fired with a system
error. -/
inductive ProcOutcome where
  | exited (code : Option Int) (signal : Option String)
  | startError (err : String)
deriving DecidableEq, Repr

/-- JS truthiness of a nullable string: `null` and `""` are falsy. -/
def jsTruthy : Option String → Bool
  | none => false
  | some s => s ≠ ""

/-- JS template-literal rendering of a nullable string: `null` prints as
the string "null". -/
def jsShowStr : Option String → String
  | none => "null"
  | some s => s

/-- JS template-literal rendering of a nullable number. -/
def jsShowInt : Option Int → String
  | none => "null"
  | some c => toString c

/-- `spawn` from scripts/lib/build-utils.mjs, lines 82-110: the settlement of
the returned promise as a function of the process outcome.  The `exit`
handler rejects on a signal other than SIGTERM, or on a non-zero non-null
exit code; otherwise the `close` handler resolves.  The `error` handler
rejects with the underlying system error unchanged. -/
def spawnSettle : ProcOutcome → Except JSError Unit
  | .startError err => .error (.system err)
  | .exited code signal =>
    if jsTruthy signal && !(signal == some "SIGTERM") then
      .error (.errMsg ("Process exited with signal " ++ jsShowStr signal))
    else if !(code == some 0) && !(code == none) then
      .error (.errMsg ("Process exited with code " ++ jsShowInt code))
    else
      .ok ()

/-- In a Node `exit` event, exactly one of `code` and `signal` is non-null,
and a signal name is a non-empty string. -/
def NodeExitValid (code : Option Int) (signal : Option String) : Prop :=
  (code ≠ none ∧ signal = none) ∨ (code = none ∧ ∃ s, signal = some s ∧ s ≠ "")

/-- JS `code || signal` as rendered in a template literal: `code` is used
when it is a non-zero number (0 and null are falsy), otherwise `signal`. -/
def jsOrShow (code : Option Int) (signal : Option String) : String :=
  match code with
  | some c => if c ≠ 0 then toString c else jsShowStr signal
  | none => jsShowStr signal

/-- The inline extraction promise of `getLima` (scripts/download/lima.mjs,
lines 32-40): resolves on exit code 0, rejects on any other `exit` event,
and — having no `error` listener — never settles when the process could not
be started (`none`). -/
def limaExtractSettle : ProcOutcome → Option (Except JSError Unit)
  | .startError _ => none
  | .exited code signal =>
    if code == some 0 then
      some (.ok ())
    else
      some (.error (.errMsg ("Lima extract failed with " ++ jsOrShow code signal)))

/-!
## Task Coordinator (`wait` / `serial`, scripts/lib/build-utils.mjs 22-24, 118-126)

A task is a zero-argument async function.  Calling it runs a synchronous
prefix (the code before its first await — e.g. setting a "started" flag or
bumping a shared counter), modelled as a state transformer `start`; the task
then settles after `delay` ticks with `result`.  Serial mode awaits each
task fully before calling the next; parallel mode calls every task (running
every synchronous prefix, in list order) and then applies `Promise.all`,
which rejects with the first rejection to surface (earliest settle time,
ties resolved by list position) and fulfills only when all tasks fulfill. -/

/-- One zero-argument async task handed to `wait`. -/
structure AsyncTask (σ ε : Type) where
  start : σ → σ
  delay : Nat
  result : Except ε Unit

/-- Run the synchronous prefixes of all tasks, in list order. -/
def startsFold {σ ε : Type} (tasks : List (AsyncTask σ ε)) (s : σ) : σ :=
  tasks.foldl (fun a t => t.start a) s

/-- The serial branch of `wait`: `for (const task of tasks) await task()`.
An awaited rejection propagates out of the loop, so later tasks are never
called. -/
def waitSerial {σ ε : Type} : List (AsyncTask σ ε) → σ → σ × Except ε Unit
  | [], s => (s, .ok ())
  | t :: ts, s =>
    match t.result with
    | .ok _ => waitSerial ts (t.start s)
    | .error e => (t.start s, .error e)

/-- The settle times and errors of the rejected tasks, in list order. -/
def rejections {σ ε : Type} (tasks : List (AsyncTask σ ε)) : List (Nat × ε) :=
  tasks.filterMap fun t =>
    match t.result with
    | .error e => some (t.delay, e)
    | .ok _ => none

/-- Keep the rejection with the smaller settle time; on a tie, the earlier
one. -/
def minStep {ε : Type} (acc : Option (Nat × ε)) (r : Nat × ε) : Option (Nat × ε) :=
  match acc with
  | none => some r
  | some r0 => if r.1 < r0.1 then some r else acc

/-- The first rejection to surface: minimal settle time, ties broken by
list position (the order in which `Promise.all` attached its handlers). -/
def firstRejection {σ ε : Type} (tasks : List (AsyncTask σ ε)) : Option (Nat × ε) :=
  (rejections tasks).foldl minStep none

/-- The parallel branch of `wait`:
`await Promise.all(tasks.map(t => t()))`.  The `map` calls every task, so
every synchronous prefix runs (in list order) before anything is awaited;
the aggregate then rejects with the first rejection to surface, or fulfills
when every task fulfilled. -/
def waitParallel {σ ε : Type} (tasks : List (AsyncTask σ ε)) (s : σ) : σ × Except ε Unit :=
  (startsFold tasks s,
    match firstRejection tasks with
    | none => .ok ()
    | some r => .error r.2)

/-- `serial` from scripts/lib/build-utils.mjs, lines 22-24:
`process.argv.some(x => x === '--serial')`, re-read on each access. -/
def serial (argv : List String) : Bool :=
  argv.any fun x => x == "--serial"

/-- `wait` from scripts/lib/build-utils.mjs, lines 118-126: consults the
`serial` getter at call time and dispatches to the serial loop or to
`Promise.all`. -/
def wait {σ ε : Type} (argv : List String) (tasks : List (AsyncTask σ ε)) (s : σ) :
    σ × Except ε Unit :=
  if serial argv then waitSerial tasks s else waitParallel tasks s

/-!
## Platform Build Pipeline (`buildMain`, `buildNerdctlStub`,
scripts/lib/build-utils.mjs 227-257, 263-273)
-/

/-- `path.join` over already-relative segments. -/
def pjoin (parts : List String) : String :=
  String.intercalate "/" parts

/-- JS `s.startsWith(pat)`: `pat` is a prefix of `s` (over characters). -/
def jsStartsWith (s pat : String) : Bool :=
  s.data.take pat.data.length == pat.data

/-- The three kinds of task `buildMain` can enqueue. -/
inductive BuildTask where
  | buildJavaScript
  | buildWSLHelper
  | buildNerdctlStub (osName : String)
deriving DecidableEq, Repr

/-- The task list `buildMain` (lines 263-273) constructs: always the
JavaScript bundling task; when `os.platform()` starts with "win", also the
WSL-helper build and the two nerdctl-stub builds. -/
def buildMainTasks (platform : String) : List BuildTask :=
  let tasks := [BuildTask.buildJavaScript]
  if jsStartsWith platform "win" then
    tasks ++ [BuildTask.buildWSLHelper,
              BuildTask.buildNerdctlStub "windows",
              BuildTask.buildNerdctlStub "linux"]
  else
    tasks

/-- `buildMain`: hands the task list to `wait` in a single call and returns
exactly its result.  `interp` gives the runtime behaviour of each task. -/
def buildMain {σ ε : Type} (argv : List String) (platform : String)
    (interp : BuildTask → AsyncTask σ ε) (s : σ) : σ × Except ε Unit :=
  wait argv ((buildMainTasks platform).map interp) s

/-- Filesystem/process actions performed by `buildNerdctlStub`, in order. -/
inductive StubAction where
  | goBuild (outFile : String) (goos : String) (cwd : String)
  | copyFile (src : String) (dst : String)
deriving DecidableEq, Repr

/-- The `(outFile, sourceFile, destFile)` path computation of
`buildNerdctlStub` (lines 233-247). -/
def nerdctlPaths (srcDir osName : String) : String × String × String :=
  if osName = "windows" then
    let parentDir := pjoin [srcDir, "resources", "win32", "bin"]
    (pjoin [parentDir, "nerdctl.exe"],
     pjoin [parentDir, "nerdctl.exe"],
     pjoin [parentDir, "docker.exe"])
  else
    let parentDir := pjoin [srcDir, "resources", "linux", "bin"]
    (pjoin [parentDir, "nerdctl-stub"],
     pjoin [parentDir, "nerdctl"],
     pjoin [parentDir, "docker"])

/-- `buildNerdctlStub` (lines 227-257): validates `osName`, awaits the
`go build` spawn (whose outcome is `goOutcome`), and only then copies the
built artifact to the consumer-expected filename.  Returns the trace of
actions performed and the task's settlement. -/
def buildNerdctlStub (goOutcome : ProcOutcome) (srcDir osName : String) :
    List StubAction × Except JSError Unit :=
  if osName = "windows" ∨ osName = "linux" then
    let paths := nerdctlPaths srcDir osName
    let buildAct := StubAction.goBuild paths.1 osName
      (pjoin [srcDir, "src", "go", "nerdctl-stub"])
    match spawnSettle goOutcome with
    | .error e => ([buildAct], .error e)
    | .ok _ => ([buildAct, StubAction.copyFile paths.2.1 paths.2.2], .ok ())
  else
    ([], .error (.errMsg ("Unexpected os of " ++ osName)))

/-!
## Resource Fetcher (scripts/lib/download.mjs — not among the analysed
sources; modelled from the spec, §4.3)
-/

/-- A Download Descriptor: URL, destination path, expected checksum,
checksum algorithm identifier, required access mode on the destination. -/
structure Descriptor where
  url : String
  destPath : String
  expectedChecksum : String
  checksumAlgorithm : String
  access : Option Nat
deriving DecidableEq, Repr

/-- Local filesystem and network-usage state threaded through the
Resource Fetcher. -/
structure FetchState where
  files : List (String × String)
  requests : Nat
  writable : List String
deriving DecidableEq, Repr

/-- Store `content` at `p`, replacing any previous content. -/
def setFile (files : List (String × String)) (p content : String) :
    List (String × String) :=
  (p, content) :: files.filter fun e => e.1 ≠ p

/-- Modelled from the spec: `download` of scripts/lib/download.mjs, §4.3.
If a file already exists at the destination and its checksum (computed with
the descriptor's algorithm by `hash`) equals the expected value, the fetch
is a no-op issuing no network request.  Otherwise the remote body (`net` at
the descriptor's URL) is streamed to the destination (one network request),
its checksum is recomputed: a match succeeds (adjusting the destination's
permission bits when an access mode was requested), a mismatch fails with
an integrity error naming both digests, leaving the written file in
place. -/
def download (hash : String → String → String) (net : String → String)
    (d : Descriptor) (st : FetchState) : FetchState × Except JSError Unit :=
  let cached :=
    match st.files.lookup d.destPath with
    | some content => hash d.checksumAlgorithm content == d.expectedChecksum
    | none => false
  if cached then
    (st, .ok ())
  else
    let body := net d.url
    let st1 : FetchState :=
      { st with files := setFile st.files d.destPath body,
                requests := st.requests + 1 }
    if hash d.checksumAlgorithm body = d.expectedChecksum then
      (match d.access with
       | some _ => { st1 with writable := d.destPath :: st1.writable }
       | none => st1,
       .ok ())
    else
      (st1, .error (.errMsg ("Expecting " ++ d.destPath ++ " to hash to "
        ++ d.expectedChecksum ++ ", got "
        ++ hash d.checksumAlgorithm body)))

/-!
## Lima downloads (scripts/download/lima.mjs)
-/

/-- A character matched by the JS regexp `\s`. -/
def isWs (c : Char) : Bool :=
  c = ' ' ∨ c = '\t' ∨ c = '\n' ∨ c = '\r' ∨ c = '\x0b' ∨ c = '\x0c'

/-- Drop a leading run of whitespace. -/
def dropWs : List Char → List Char
  | [] => []
  | c :: cs => if isWs c then dropWs cs else c :: cs

/-- JS `s.split(/\s+/)` over the character list (`acc` holds the current
field, reversed). -/
def jsSplitWsAux (acc : List Char) : List Char → List String
  | [] => [String.mk acc.reverse]
  | c :: cs =>
    if isWs c then
      String.mk acc.reverse :: jsSplitWsAux [] (dropWs cs)
    else
      jsSplitWsAux (c :: acc) cs
termination_by l => l.length
decreasing_by
  · simp only [List.length_cons]
    have h : ∀ l : List Char, (dropWs l).length ≤ l.length := by
      intro l
      induction l with
      | nil => simp [dropWs]
      | cons x xs ih =>
        simp only [dropWs]
        by_cases hx : isWs x = true
        · simp only [hx, if_true]
          exact le_trans ih (by simp)
        · simp [hx]
    have := h cs
    omega
  · simp

/-- JS `s.split(/\s+/)`: split on runs of whitespace; a leading run yields
an empty first element and a trailing run an empty last element. -/
def jsSplitWs (s : String) : List String :=
  jsSplitWsAux [] s.data

/-- Constants of scripts/download/lima.mjs, lines 9-15. -/
def limaRepo : String := "https://github.com/rancher-sandbox/lima-and-qemu"

def limaTag : String := "v1.23"

def alpineLimaRepo : String := "https://github.com/lima-vm/alpine-lima"

def alpineLimaTag : String := "v0.2.16"

def alpineLimaEdition : String := "rd"

def alpineLimaVersion : String := "3.15.4"

/-- `fs.constants.W_OK`. -/
def wOK : Nat := 2

/-- Externally observable steps of `getLima` / `getAlpineLima`, in order.
`fetchText` is a `getResource` call — it carries only a URL, no checksum to
verify against; `fetchFile` is a `download` call with a full descriptor. -/
inductive LimaEvent where
  | fetchText (url : String)
  | fetchFile (d : Descriptor)
  | mkdirRec (dir : String)
  | spawnTar (tarPath : String) (cwd : String)
deriving DecidableEq, Repr

/-- Environment a lima download runs against: the body `getResource` yields
for each URL (modelled from the spec: `getResource` fetches a remote body
with no checksum verification of its own), the settlement of each
`download` call, and the outcome of the `/usr/bin/tar` child process. -/
structure LimaEnv where
  text : String → String
  downloadResult : Descriptor → Except JSError Unit
  tarOutcome : ProcOutcome

/-- The resource URL `getLima` builds (line 18). -/
def limaUrl (platform : String) : String :=
  limaRepo ++ "/releases/download/" ++ limaTag ++ "/lima-and-qemu."
    ++ platform ++ ".tar.gz"

/-- The descriptor `getLima` passes to `download` (lines 18-26). -/
def limaDescriptor (env : LimaEnv) (cwd platform : String) : Descriptor :=
  { url := limaUrl platform,
    destPath := pjoin [cwd, "resources", platform,
      "lima-" ++ limaTag ++ "." ++ platform ++ ".tgz"],
    expectedChecksum :=
      ((jsSplitWs (env.text (limaUrl platform ++ ".sha512sum"))).headD ""),
    checksumAlgorithm := "sha512",
    access := some wOK }

/-- `getLima` (lines 17-41): fetch the companion checksum manifest, download
the tarball against its first field, create the lima directory, spawn
`/usr/bin/tar -xf` and settle as the inline extraction promise does.  The
result is the trace of steps performed and the settlement of the returned
promise (`none` = never settles). -/
def getLima (env : LimaEnv) (cwd platform : String) :
    List LimaEvent × Option (Except JSError Unit) :=
  let url := limaUrl platform
  let d := limaDescriptor env cwd platform
  let resourcesDir := pjoin [cwd, "resources", platform]
  let limaDir := pjoin [resourcesDir, "lima"]
  match env.downloadResult d with
  | .error e => ([.fetchText (url ++ ".sha512sum"), .fetchFile d], some (.error e))
  | .ok _ =>
    ([.fetchText (url ++ ".sha512sum"), .fetchFile d,
      .mkdirRec limaDir, .spawnTar d.destPath limaDir],
     limaExtractSettle env.tarOutcome)

/-- The resource URL `getAlpineLima` builds (line 44). -/
def alpineLimaUrl (arch : String) : String :=
  alpineLimaRepo ++ "/releases/download/" ++ alpineLimaTag ++ "/alpine-lima-"
    ++ alpineLimaEdition ++ "-" ++ alpineLimaVersion ++ "-" ++ arch ++ ".iso"

/-- The descriptor `getAlpineLima` passes to `download` (lines 44-50). -/
def alpineLimaDescriptor (env : LimaEnv) (cwd arch platform : String) : Descriptor :=
  { url := alpineLimaUrl arch,
    destPath := pjoin [cwd, "resources", platform,
      "alpine-lima-" ++ alpineLimaTag ++ "-" ++ alpineLimaEdition ++ "-"
        ++ alpineLimaVersion ++ ".iso"],
    expectedChecksum :=
      ((jsSplitWs (env.text (alpineLimaUrl arch ++ ".sha512sum"))).headD ""),
    checksumAlgorithm := "sha512",
    access := some wOK }

/-- `getAlpineLima` (lines 43-51): fetch the companion checksum manifest,
then download the ISO against its first field. -/
def getAlpineLima (env : LimaEnv) (cwd arch platform : String) :
    List LimaEvent × Option (Except JSError Unit) :=
  let url := alpineLimaUrl arch
  let d := alpineLimaDescriptor env cwd arch platform
  ([.fetchText (url ++ ".sha512sum"), .fetchFile d],
   some (env.downloadResult d))

/-!
## The `run()` entry point (scripts/download/lima.mjs, lines 53-71)
-/

/-- The fate of one JS promise. -/
inductive Promise (ε : Type) where
  | pending
  | fulfilled
  | rejected (e : ε)
deriving DecidableEq, Repr

/-- A JS value handed to `Promise.all`: either an Array (not a thenable) or
a promise. -/
inductive JSVal (ε : Type) where
  | arr (xs : List (Promise ε))
  | prom (p : Promise ε)
deriving DecidableEq, Repr

/-- `Promise.all` over a JS iterable: a non-thenable element counts as
already fulfilled; the aggregate rejects with the first rejection among the
promise elements, stays pending while a promise element is pending, and
fulfills otherwise. -/
def promiseAll {ε : Type} (xs : List (JSVal ε)) : Promise ε :=
  match xs.filterMap (fun x =>
      match x with
      | .prom (.rejected e) => some e
      | _ => none) with
  | e :: _ => .rejected e
  | [] =>
    if xs.any (fun x =>
        match x with
        | .prom .pending => true
        | _ => false) then
      .pending
    else
      .fulfilled

/-- The eventual fates of the download promises `run` creates: the promise
`getLima(platform)` and the promise `getAlpineLima(arch, platform)`. -/
structure RunEnv (ε : Type) where
  limaP : String → Promise ε
  alpineP : String → String → Promise ε

/-- `run()` (lines 53-71): builds `promises`, an array whose ELEMENTS are
arrays of two download promises (`promises.push([...])`), and returns
`Promise.all(promises)`.  Inputs: `os.platform()`, `process.env.M1`,
`process.arch`.  Returns both the constructed array-of-arrays and the fate
of the promise `run` returns. -/
def run {ε : Type} (env : RunEnv ε) (osPlatform : String)
    (envM1 : Option String) (procArch : String) :
    List (List (Promise ε)) × Promise ε :=
  let m1Block : List (List (Promise ε)) :=
    if osPlatform = "darwin" ∧ envM1 ≠ some "0"
        ∧ (jsTruthy envM1 = true ∨ procArch = "arm64") then
      [[env.limaP "macos-aarch64", env.alpineP "aarch64" "macos-aarch64"]]
    else
      []
  let platform := if osPlatform = "darwin" then "macos" else osPlatform
  let promises := m1Block ++ [[env.limaP platform, env.alpineP "x86_64" platform]]
  (promises, promiseAll (promises.map JSVal.arr))

/-!
## Theorems
-/

/-- C1: For every command invocation run through the Process Supervisor
(`spawn`), the returned promise resolves successfully when the process exits
with code 0 or is terminated by the signal SIGTERM; it rejects with a
descriptive error when the exit code is non-zero and non-null, or the
process is terminated by any signal other than SIGTERM, or the process
could not be started at all, in which case the underlying system error is
surfaced unchanged. -/
theorem spawn_settlement_classification (code : Option Int) (signal : Option String)
    (err : String) (hvalid : NodeExitValid code signal) :
    (code = some 0 → spawnSettle (.exited code signal) = .ok ())
    ∧ (signal = some "SIGTERM" → spawnSettle (.exited code signal) = .ok ())
    ∧ (∀ c : Int, code = some c → c ≠ 0 →
        spawnSettle (.exited code signal)
          = .error (.errMsg ("Process exited with code " ++ toString c)))
    ∧ (∀ s : String, signal = some s → s ≠ "SIGTERM" →
        spawnSettle (.exited code signal)
          = .error (.errMsg ("Process exited with signal " ++ s)))
    ∧ spawnSettle (.startError err) = .error (.system err) := by
  refine ⟨?_, ?_, ?_, ?_, rfl⟩
  · rintro rfl
    rcases hvalid with ⟨-, rfl⟩ | ⟨hc, -⟩
    · simp [spawnSettle, jsTruthy]
    · simp at hc
  · rintro rfl
    rcases hvalid with ⟨-, hs⟩ | ⟨rfl, -⟩
    · simp at hs
    · simp [spawnSettle, jsTruthy]
  · rintro c rfl hc0
    rcases hvalid with ⟨-, rfl⟩ | ⟨hc, -⟩
    · simp [spawnSettle, jsTruthy, jsShowInt, hc0]
    · simp at hc
  · rintro s rfl hsT
    rcases hvalid with ⟨-, hs⟩ | ⟨rfl, s', hs', hsne⟩
    · simp at hs
    · obtain rfl : s' = s := by injection hs'.symm
      simp [spawnSettle, jsTruthy, jsShowStr, hsT, hsne]

/-- C1 witness: the classification at concrete outcomes. -/
theorem spawn_settlement_classification_witness :
    spawnSettle (.exited (some 0) none) = .ok ()
    ∧ spawnSettle (.exited none (some "SIGTERM")) = .ok ()
    ∧ spawnSettle (.exited (some 2) none)
        = .error (.errMsg "Process exited with code 2")
    ∧ spawnSettle (.exited none (some "SIGKILL"))
        = .error (.errMsg "Process exited with signal SIGKILL")
    ∧ spawnSettle (.startError "ENOENT") = .error (.system "ENOENT") := by
  have h1 := spawn_settlement_classification (some 0) none "ENOENT"
    (Or.inl ⟨by simp, rfl⟩)
  have h2 := spawn_settlement_classification none (some "SIGTERM") "ENOENT"
    (Or.inr ⟨rfl, "SIGTERM", rfl, by decide⟩)
  have h3 := spawn_settlement_classification (some 2) none "ENOENT"
    (Or.inl ⟨by simp, rfl⟩)
  have h4 := spawn_settlement_classification none (some "SIGKILL") "ENOENT"
    (Or.inr ⟨rfl, "SIGKILL", rfl, by decide⟩)
  refine ⟨h1.1 rfl, h2.2.1 rfl, ?_, ?_, h1.2.2.2.2⟩
  · rw [h3.2.2.1 2 rfl (by decide)]
    rfl
  · rw [h4.2.2.2.1 "SIGKILL" rfl (by decide)]
    rfl

/-- C2: In serial mode, tasks run one at a time in list order — the tasks
after a fully-settled successful prefix run from exactly the state that
prefix produced — and on the first task failure the coordination call
rejects with that task's error, the final state showing that no later task
was ever started. -/
theorem wait_serial_order_and_first_failure {σ ε : Type}
    (pre : List (AsyncTask σ ε)) (s : σ)
    (hpre : ∀ x ∈ pre, x.result = .ok ()) :
    (∀ rest : List (AsyncTask σ ε),
      waitSerial (pre ++ rest) s = waitSerial rest (startsFold pre s))
    ∧ (∀ (t : AsyncTask σ ε) (e : ε) (post : List (AsyncTask σ ε)),
        t.result = .error e →
        waitSerial (pre ++ t :: post) s = (t.start (startsFold pre s), .error e)) := by
  have hsplit : ∀ rest : List (AsyncTask σ ε),
      waitSerial (pre ++ rest) s = waitSerial rest (startsFold pre s) := by
    intro rest
    induction pre generalizing s with
    | nil => simp [startsFold]
    | cons x xs ih =>
      have hx : x.result = .ok () := hpre x (by simp)
      simp only [List.cons_append, waitSerial, hx, startsFold, List.foldl_cons]
      exact ih (x.start s) fun y hy => hpre y (List.mem_cons_of_mem x hy)
  refine ⟨hsplit, fun t e post ht => ?_⟩
  rw [hsplit (t :: post)]
  simp [waitSerial, ht]

/-- C2 witness: serial coordination over [A, B, C] where B fails; each task
bumps a shared counter on start.  A completes, B fails, the call rejects
with B's error, and C never starts (the counter stops at 2). -/
theorem wait_serial_order_and_first_failure_witness :
    waitSerial [(⟨fun n => n + 1, 0, .ok ()⟩ : AsyncTask Nat String),
                ⟨fun n => n + 1, 0, .error "B failed"⟩,
                ⟨fun n => n + 1, 0, .ok ()⟩] 0
      = (2, .error "B failed") := by
  have h := (wait_serial_order_and_first_failure
      [(⟨fun n => n + 1, 0, .ok ()⟩ : AsyncTask Nat String)] 0
      (by intro x hx; simp at hx; subst hx; rfl)).2
    ⟨fun n => n + 1, 0, .error "B failed"⟩ "B failed"
    [⟨fun n => n + 1, 0, .ok ()⟩] rfl
  simpa [startsFold] using h

theorem foldl_minStep_none {ε : Type} :
    ∀ (l : List (Nat × ε)) (acc : Option (Nat × ε)),
    l.foldl minStep acc = none ↔ l = [] ∧ acc = none := by
  intro l
  induction l with
  | nil => simp
  | cons r l' ih =>
    intro acc
    simp only [List.foldl_cons, ih]
    constructor
    · rintro ⟨-, hstep⟩
      cases acc with
      | none => simp [minStep] at hstep
      | some r0 =>
        simp only [minStep] at hstep
        split at hstep <;> simp at hstep
    · rintro ⟨h, -⟩
      simp at h

theorem foldl_minStep_some {ε : Type} :
    ∀ (l : List (Nat × ε)) (acc : Option (Nat × ε)) (r : Nat × ε),
    l.foldl minStep acc = some r →
    (acc = some r ∨ r ∈ l)
    ∧ (∀ r' ∈ l, r.1 ≤ r'.1)
    ∧ (∀ r0 : Nat × ε, acc = some r0 → r.1 ≤ r0.1) := by
  intro l
  induction l with
  | nil =>
    intro acc r h
    simp at h
    simp [h]
  | cons x l' ih =>
    intro acc r h
    simp only [List.foldl_cons] at h
    obtain ⟨hmem, hmin, hacc⟩ := ih (minStep acc x) r h
    cases acc with
    | none =>
      have hx : r.1 ≤ x.1 := hacc x rfl
      refine ⟨?_, ?_, ?_⟩
      · rcases hmem with hm | hm
        · simp only [minStep] at hm
          exact Or.inr (by simp [← Option.some_inj.mp hm])
        · exact Or.inr (List.mem_cons_of_mem x hm)
      · intro r' hr'
        rcases List.mem_cons.mp hr' with rfl | hr'
        · exact hx
        · exact hmin r' hr'
      · intro r0 h0
        simp at h0
    | some r0 =>
      have hstep : minStep (some r0) x = if x.1 < r0.1 then some x else some r0 := rfl
      by_cases hlt : x.1 < r0.1
      · rw [hstep, if_pos hlt] at hmem hacc
        have hx : r.1 ≤ x.1 := hacc x rfl
        refine ⟨?_, ?_, ?_⟩
        · rcases hmem with hm | hm
          · exact Or.inr (by simp [← Option.some_inj.mp hm])
          · exact Or.inr (List.mem_cons_of_mem x hm)
        · intro r' hr'
          rcases List.mem_cons.mp hr' with rfl | hr'
          · exact hx
          · exact hmin r' hr'
        · intro r1 h1
          obtain rfl : r0 = r1 := Option.some_inj.mp h1
          exact le_trans hx (le_of_lt hlt)
      · rw [hstep, if_neg hlt] at hmem hacc
        have hr0 : r.1 ≤ r0.1 := hacc r0 rfl
        refine ⟨?_, ?_, ?_⟩
        · rcases hmem with hm | hm
          · exact Or.inl hm
          · exact Or.inr (List.mem_cons_of_mem x hm)
        · intro r' hr'
          rcases List.mem_cons.mp hr' with rfl | hr'
          · exact le_trans hr0 (Nat.le_of_not_lt hlt)
          · exact hmin r' hr'
        · intro r1 h1
          obtain rfl : r0 = r1 := Option.some_inj.mp h1
          exact hr0

theorem rejections_eq_nil_iff {σ ε : Type} (tasks : List (AsyncTask σ ε)) :
    rejections tasks = [] ↔ ∀ t ∈ tasks, t.result = .ok () := by
  rw [rejections, List.filterMap_eq_nil_iff]
  constructor
  · intro h t ht
    have := h t ht
    cases hres : t.result with
    | ok u => cases u; rfl
    | error e => rw [hres] at this; simp at this
  · intro h t ht
    rw [h t ht]

theorem mem_rejections {σ ε : Type} (tasks : List (AsyncTask σ ε)) (r : Nat × ε) :
    r ∈ rejections tasks ↔ ∃ t ∈ tasks, t.result = .error r.2 ∧ t.delay = r.1 := by
  rw [rejections, List.mem_filterMap]
  constructor
  · rintro ⟨t, ht, hf⟩
    refine ⟨t, ht, ?_⟩
    cases hres : t.result with
    | ok u => rw [hres] at hf; simp at hf
    | error e =>
      rw [hres] at hf
      simp only [Option.some_inj] at hf
      rw [← hf]
      exact ⟨rfl, rfl⟩
  · rintro ⟨t, ht, hres, hd⟩
    exact ⟨t, ht, by rw [hres, hd]⟩

/-- C3: In the default parallel mode, every task is started (its synchronous
prefix runs, in list order) before any task's result is awaited; the call
resolves exactly when every task fulfilled; and a rejection of the call
carries the error of a failing task that settles no later than any other
failing task — the first rejection to surface — with no other failure
reported. -/
theorem wait_parallel_spec {σ ε : Type} (tasks : List (AsyncTask σ ε)) (s : σ) :
    (waitParallel tasks s).1 = startsFold tasks s
    ∧ ((waitParallel tasks s).2 = .ok () ↔ ∀ t ∈ tasks, t.result = .ok ())
    ∧ (∀ e : ε, (waitParallel tasks s).2 = .error e →
        ∃ t ∈ tasks, t.result = .error e
          ∧ ∀ u ∈ tasks, ∀ e' : ε, u.result = .error e' → t.delay ≤ u.delay) := by
  refine ⟨rfl, ?_, ?_⟩
  · rw [← rejections_eq_nil_iff]
    simp only [waitParallel]
    cases hfr : firstRejection tasks with
    | none =>
      simp only []
      rw [firstRejection] at hfr
      have := (foldl_minStep_none (rejections tasks) none).mp hfr
      simp [this.1]
    | some r =>
      simp only []
      constructor
      · intro h; simp at h
      · intro h
        rw [firstRejection, h] at hfr
        simp at hfr
  · intro e he
    simp only [waitParallel] at he
    cases hfr : firstRejection tasks with
    | none => rw [hfr] at he; simp at he
    | some r =>
      rw [hfr] at he
      simp only [Except.error.injEq] at he
      rw [firstRejection] at hfr
      obtain ⟨hmem, hmin, -⟩ := foldl_minStep_some (rejections tasks) none r hfr
      rcases hmem with hm | hm
      · simp at hm
      · obtain ⟨t, ht, hres, hd⟩ := (mem_rejections tasks r).mp hm
        refine ⟨t, ht, by rw [hres, he], ?_⟩
        intro u hu e' hu'
        have : (u.delay, e') ∈ rejections tasks :=
          (mem_rejections tasks (u.delay, e')).mpr ⟨u, hu, hu', rfl⟩
        have := hmin (u.delay, e') this
        omega

/-- C3 witness: parallel coordination over two long-running tasks, each
bumping a shared counter on start — both are started (counter 2) even
though both fail; the call rejects with the error of the earlier-settling
task only, though it is listed second. -/
theorem wait_parallel_spec_witness :
    (waitParallel [(⟨fun n => n + 1, 7, .error "late"⟩ : AsyncTask Nat String),
                   ⟨fun n => n + 1, 3, .error "early"⟩] 0).1 = 2
    ∧ ∃ t ∈ [(⟨fun n => n + 1, 7, .error "late"⟩ : AsyncTask Nat String),
             ⟨fun n => n + 1, 3, .error "early"⟩],
        t.result = .error "early"
          ∧ ∀ u ∈ [(⟨fun n => n + 1, 7, .error "late"⟩ : AsyncTask Nat String),
                   ⟨fun n => n + 1, 3, .error "early"⟩],
              ∀ e' : String, u.result = .error e' → t.delay ≤ u.delay := by
  constructor
  · rw [(wait_parallel_spec [(⟨fun n => n + 1, 7, .error "late"⟩ : AsyncTask Nat String),
        ⟨fun n => n + 1, 3, .error "early"⟩] 0).1]
    rfl
  · exact (wait_parallel_spec [(⟨fun n => n + 1, 7, .error "late"⟩ : AsyncTask Nat String),
      ⟨fun n => n + 1, 3, .error "early"⟩] 0).2.2 "early" rfl

/-- C9: The serial predicate is true exactly when some element of the
invoking process's argument list equals "--serial"; each `wait` call reads
it at call time to pick the serial or the parallel branch; and two
coordination calls in the same process can behave differently if the
argument list is mutated between them (witnessed by an argument list with
and without "--serial" and a task list that serial and parallel modes treat
observably differently). -/
theorem serial_toggle_spec {σ ε : Type} (argv : List String)
    (tasks : List (AsyncTask σ ε)) (s : σ) :
    (serial argv = true ↔ "--serial" ∈ argv)
    ∧ wait argv tasks s
        = (if serial argv then waitSerial tasks s else waitParallel tasks s)
    ∧ wait ["--serial"]
        [(⟨fun n => n + 1, 0, .error "stop"⟩ : AsyncTask Nat String),
         ⟨fun n => n + 1, 0, .ok ()⟩] 0
      ≠ wait []
        [(⟨fun n => n + 1, 0, .error "stop"⟩ : AsyncTask Nat String),
         ⟨fun n => n + 1, 0, .ok ()⟩] 0 := by
  refine ⟨?_, rfl, ?_⟩
  · simp [serial, List.any_eq_true]
  · intro hcontra
    have h1 : wait ["--serial"]
        [(⟨fun n => n + 1, 0, .error "stop"⟩ : AsyncTask Nat String),
         ⟨fun n => n + 1, 0, .ok ()⟩] 0 = (1, .error "stop") := rfl
    have h2 : wait []
        [(⟨fun n => n + 1, 0, .error "stop"⟩ : AsyncTask Nat String),
         ⟨fun n => n + 1, 0, .ok ()⟩] 0 = (2, .error "stop") := rfl
    rw [h1, h2] at hcontra
    simp at hcontra

/-- C9 witness: the serial predicate on concrete argument lists with and
without "--serial". -/
theorem serial_toggle_spec_witness :
    serial ["node", "scripts", "--serial"] = true
    ∧ serial ["node", "scripts"] = false := by
  have h1 := serial_toggle_spec ["node", "scripts", "--serial"]
    ([] : List (AsyncTask Nat String)) 0
  have h2 := serial_toggle_spec ["node", "scripts"]
    ([] : List (AsyncTask Nat String)) 0
  refine ⟨h1.1.mpr (by simp), ?_⟩
  rw [Bool.eq_false_iff]
  intro hc
  have := h2.1.mp hc
  simp at this

/-- C5: `buildMain` hands exactly one task (bundling) to the Task
Coordinator on a non-Windows platform and exactly four tasks (bundling,
the WSL-helper cross-compile, and the two nerdctl-stub cross-compiles) on
a platform starting with "win", as one flat list in a single `wait` call
whose result is the pipeline's result. -/
theorem buildMain_task_list {σ ε : Type} (argv : List String) (platform : String)
    (interp : BuildTask → AsyncTask σ ε) (s : σ) :
    (jsStartsWith platform "win" = false →
      buildMainTasks platform = [.buildJavaScript])
    ∧ (jsStartsWith platform "win" = true →
      buildMainTasks platform
        = [.buildJavaScript, .buildWSLHelper,
           .buildNerdctlStub "windows", .buildNerdctlStub "linux"])
    ∧ buildMain argv platform interp s
        = wait argv ((buildMainTasks platform).map interp) s := by
  refine ⟨fun h => ?_, fun h => ?_, rfl⟩ <;> simp [buildMainTasks, h]

/-- C5 witness: the task lists on a darwin host and on a win32 host. -/
theorem buildMain_task_list_witness :
    buildMainTasks "darwin" = [.buildJavaScript]
    ∧ buildMainTasks "win32"
        = [.buildJavaScript, .buildWSLHelper,
           .buildNerdctlStub "windows", .buildNerdctlStub "linux"] :=
  ⟨(buildMain_task_list [] "darwin"
      (fun _ => (⟨id, 0, .ok ()⟩ : AsyncTask Nat String)) 0).1 (by decide),
   (buildMain_task_list [] "win32"
      (fun _ => (⟨id, 0, .ok ()⟩ : AsyncTask Nat String)) 0).2.1 (by decide)⟩

/-- C6: For every valid nerdctl-stub build task, the staging copy to the
consumer-expected filename is performed as a continuation after the
cross-compilation spawn succeeds — the trace is the go-build action
followed by the copy — and when the cross-compilation fails the task
rejects with its error and no copy action ever appears in the trace. -/
theorem nerdctl_stub_copy_sequencing (goOutcome : ProcOutcome)
    (srcDir osName : String) (hos : osName = "windows" ∨ osName = "linux") :
    (spawnSettle goOutcome = .ok () →
      buildNerdctlStub goOutcome srcDir osName
        = ([.goBuild (nerdctlPaths srcDir osName).1 osName
              (pjoin [srcDir, "src", "go", "nerdctl-stub"]),
            .copyFile (nerdctlPaths srcDir osName).2.1
              (nerdctlPaths srcDir osName).2.2], .ok ()))
    ∧ (∀ e : JSError, spawnSettle goOutcome = .error e →
        buildNerdctlStub goOutcome srcDir osName
          = ([.goBuild (nerdctlPaths srcDir osName).1 osName
                (pjoin [srcDir, "src", "go", "nerdctl-stub"])], .error e))
    ∧ (∀ src dst : String,
        StubAction.copyFile src dst ∈ (buildNerdctlStub goOutcome srcDir osName).1 →
        spawnSettle goOutcome = .ok ()) := by
  cases hsp : spawnSettle goOutcome with
  | ok u =>
    cases u
    refine ⟨fun _ => ?_, fun e he => ?_, fun src dst _ => rfl⟩
    · simp [buildNerdctlStub, hos, hsp]
    · simp at he
  | error e0 =>
    refine ⟨fun h => ?_, fun e he => ?_, fun src dst hmem => ?_⟩
    · simp at h
    · obtain rfl : e0 = e := by injection he
      simp [buildNerdctlStub, hos, hsp]
    · exfalso
      simp only [buildNerdctlStub, if_pos hos, hsp] at hmem
      simp at hmem

/-- C6 witness: a successful and a failed cross-compilation of the windows
stub — the copy of nerdctl.exe to docker.exe happens exactly in the
successful case, after the build. -/
theorem nerdctl_stub_copy_sequencing_witness :
    buildNerdctlStub (.exited (some 0) none) "repo" "windows"
      = ([.goBuild "repo/resources/win32/bin/nerdctl.exe" "windows"
            "repo/src/go/nerdctl-stub",
          .copyFile "repo/resources/win32/bin/nerdctl.exe"
            "repo/resources/win32/bin/docker.exe"], .ok ())
    ∧ buildNerdctlStub (.exited (some 1) none) "repo" "windows"
      = ([.goBuild "repo/resources/win32/bin/nerdctl.exe" "windows"
            "repo/src/go/nerdctl-stub"],
         .error (.errMsg "Process exited with code 1")) := by
  have h0 := nerdctl_stub_copy_sequencing (.exited (some 0) none) "repo" "windows"
    (Or.inl rfl)
  have h1 := nerdctl_stub_copy_sequencing (.exited (some 1) none) "repo" "windows"
    (Or.inl rfl)
  constructor
  · rw [h0.1 rfl]
    rfl
  · rw [h1.2.1 (.errMsg "Process exited with code 1") rfl]
    rfl

/-- C4 counterexample: for an extraction process terminated by SIGTERM
(exit code null), the Process Supervisor's classification is success, but
the Archive Installer (the inline extraction promise of `getLima`, which
does not delegate to the Supervisor) rejects — so the Installer's result is
not the Supervisor's result.  Shown both on the classifiers and on a full
`getLima` run whose download succeeds. -/
theorem lima_extract_differs_from_supervisor :
    spawnSettle (.exited none (some "SIGTERM")) = .ok ()
    ∧ limaExtractSettle (.exited none (some "SIGTERM"))
        = some (.error (.errMsg "Lima extract failed with SIGTERM"))
    ∧ (getLima ⟨fun _ => "h", fun _ => .ok (), .exited none (some "SIGTERM")⟩
        "wd" "macos").2
        = some (.error (.errMsg "Lima extract failed with SIGTERM"))
    ∧ spawnSettle (.startError "ENOENT") = .error (.system "ENOENT")
    ∧ limaExtractSettle (.startError "ENOENT") = none := by
  exact ⟨rfl, rfl, rfl, rfl, rfl⟩

/-- C4 amended: the extraction result is the inline classifier's, not the
Supervisor's: the Installer succeeds exactly when the extraction process
exits with code 0; any other exit (including termination by SIGTERM, whose
exit code is null) rejects with a "Lima extract failed with" error, and an
extraction process that cannot be started leaves the promise forever
unsettled (no error listener), so the underlying system error is not
surfaced.  A successful download makes `getLima` settle exactly as this
classifier does. -/
theorem lima_extract_classification (code : Option Int) (signal : Option String)
    (err : String) (env : LimaEnv) (cwd platform : String)
    (hdl : ∀ d : Descriptor, env.downloadResult d = .ok ()) :
    (limaExtractSettle (.exited code signal) = some (.ok ()) ↔ code = some 0)
    ∧ limaExtractSettle (.startError err) = none
    ∧ (getLima env cwd platform).2 = limaExtractSettle env.tarOutcome := by
  refine ⟨?_, rfl, ?_⟩
  · by_cases hc : code = some 0
    · simp [limaExtractSettle, hc]
    · constructor
      · intro h
        simp [limaExtractSettle, hc] at h
      · intro h
        exact absurd h hc
  · simp only [getLima, hdl]

/-- C4 amended witness: a download-succeeding environment whose tar process
exits 0 makes `getLima` fulfill. -/
theorem lima_extract_classification_witness :
    limaExtractSettle (.exited (some 0) none) = some (.ok ())
    ∧ (getLima ⟨fun _ => "h", fun _ => .ok (), .exited (some 0) none⟩
        "wd" "macos").2 = some (.ok ()) := by
  have h := lima_extract_classification (some 0) none "e"
    ⟨fun _ => "h", fun _ => .ok (), .exited (some 0) none⟩ "wd" "macos"
    (fun _ => rfl)
  exact ⟨h.1.mpr rfl, by rw [h.2.2]; rfl⟩

theorem lookup_setFile (files : List (String × String)) (p content : String) :
    (setFile files p content).lookup p = some content := by
  simp [setFile, List.lookup]

/-- C7: When a file already exists at the destination and its checksum
under the descriptor's algorithm matches the expected value, `download` is
a no-op issuing no network request; consequently two successive calls with
the same descriptor and a correct remote resource both succeed and the
second performs no network transfer. -/
theorem download_cache_idempotent (hash : String → String → String)
    (net : String → String) (d : Descriptor) (st : FetchState) :
    (∀ content : String, st.files.lookup d.destPath = some content →
      hash d.checksumAlgorithm content = d.expectedChecksum →
      download hash net d st = (st, .ok ()))
    ∧ (hash d.checksumAlgorithm (net d.url) = d.expectedChecksum →
      (download hash net d st).2 = .ok ()
      ∧ (download hash net d ((download hash net d st).1)).2 = .ok ()
      ∧ (download hash net d ((download hash net d st).1)).1.requests
          = (download hash net d st).1.requests) := by
  have hcached : ∀ st' : FetchState, ∀ content : String,
      st'.files.lookup d.destPath = some content →
      hash d.checksumAlgorithm content = d.expectedChecksum →
      download hash net d st' = (st', .ok ()) := by
    intro st' content hlook hsum
    simp [download, hlook, hsum]
  refine ⟨hcached st, fun hnet => ?_⟩
  have hsecond : ∀ st' : FetchState,
      st'.files.lookup d.destPath = some (net d.url) →
      download hash net d st' = (st', .ok ()) :=
    fun st' hlook => hcached st' (net d.url) hlook hnet
  by_cases hc : ∃ content : String,
      st.files.lookup d.destPath = some content
      ∧ hash d.checksumAlgorithm content = d.expectedChecksum
  · obtain ⟨content, hlook, hsum⟩ := hc
    have h1 : download hash net d st = (st, .ok ()) := hcached st content hlook hsum
    refine ⟨by rw [h1], by simp [h1], by simp [h1]⟩
  · have hnotc : (match st.files.lookup d.destPath with
        | some content => hash d.checksumAlgorithm content == d.expectedChecksum
        | none => false) = false := by
      cases hlook : st.files.lookup d.destPath with
      | none => rfl
      | some content =>
        simp only [beq_eq_false_iff_ne, ne_eq]
        intro hsum
        exact hc ⟨content, hlook, hsum⟩
    have h1 : (download hash net d st).2 = .ok ()
        ∧ (download hash net d st).1.files
            = setFile st.files d.destPath (net d.url) := by
      simp only [download, hnotc, Bool.false_eq_true, if_false, hnet, if_true]
      cases d.access <;> simp
    obtain ⟨h1r, h1f⟩ := h1
    have h2 : download hash net d ((download hash net d st).1)
        = ((download hash net d st).1, .ok ()) :=
      hsecond (download hash net d st).1
        (by rw [h1f]; exact lookup_setFile st.files d.destPath (net d.url))
    exact ⟨h1r, by rw [h2], by rw [h2]⟩

/-- C7 witness: a cached matching file is served with no state change, and
a fresh fetch followed by an immediate re-fetch succeeds twice with no
second network transfer (the "hash" of a body is the body itself and the
remote serves "BODY", the expected checksum). -/
theorem download_cache_idempotent_witness :
    download (fun _ c => c) (fun _ => "BODY")
        ⟨"u", "p", "BODY", "sha512", none⟩ ⟨[("p", "BODY")], 5, []⟩
      = (⟨[("p", "BODY")], 5, []⟩, .ok ())
    ∧ (download (fun _ c => c) (fun _ => "BODY")
        ⟨"u", "p", "BODY", "sha512", none⟩
        ((download (fun _ c => c) (fun _ => "BODY")
          ⟨"u", "p", "BODY", "sha512", none⟩ ⟨[], 0, []⟩).1)).2 = .ok ()
    ∧ (download (fun _ c => c) (fun _ => "BODY")
        ⟨"u", "p", "BODY", "sha512", none⟩
        ((download (fun _ c => c) (fun _ => "BODY")
          ⟨"u", "p", "BODY", "sha512", none⟩ ⟨[], 0, []⟩).1)).1.requests
      = (download (fun _ c => c) (fun _ => "BODY")
          ⟨"u", "p", "BODY", "sha512", none⟩ ⟨[], 0, []⟩).1.requests :=
  ⟨(download_cache_idempotent (fun _ c => c) (fun _ => "BODY")
      ⟨"u", "p", "BODY", "sha512", none⟩ ⟨[("p", "BODY")], 5, []⟩).1 "BODY" rfl rfl,
   ((download_cache_idempotent (fun _ c => c) (fun _ => "BODY")
      ⟨"u", "p", "BODY", "sha512", none⟩ ⟨[], 0, []⟩).2 rfl).2.1,
   ((download_cache_idempotent (fun _ c => c) (fun _ => "BODY")
      ⟨"u", "p", "BODY", "sha512", none⟩ ⟨[], 0, []⟩).2 rfl).2.2⟩

theorem jsSplitWsAux_headD (l : List Char) : ∀ acc : List Char,
    (jsSplitWsAux acc l).headD ""
      = String.mk (acc.reverse ++ l.takeWhile (fun c => !isWs c)) := by
  induction l with
  | nil =>
    intro acc
    simp [jsSplitWsAux]
  | cons c cs ih =>
    intro acc
    by_cases hw : isWs c = true
    · simp [jsSplitWsAux, hw]
    · simp only [jsSplitWsAux, hw, Bool.false_eq_true, if_false, ih,
        List.takeWhile_cons, Bool.not_false, List.reverse_cons, List.append_assoc,
        List.cons_append, List.nil_append]
      simp [hw]

/-- The first element of a JS whitespace split is the leading run of
non-whitespace characters. -/
theorem jsSplitWs_headD (s : String) :
    (jsSplitWs s).headD "" = String.mk (s.data.takeWhile (fun c => !isWs c)) := by
  simpa using jsSplitWsAux_headD s.data []

/-- C8: For both lima and alpine-lima acquisitions, the expected checksum is
taken as the first whitespace-delimited field of the body fetched from the
resource URL with ".sha512sum" appended, the download descriptor carries
the sha512 algorithm, and the only `getResource` (checksum-free) fetch in
either trace is that manifest fetch; the download itself is performed
against exactly that descriptor. -/
theorem checksum_manifest_convention (env : LimaEnv) (cwd platform arch : String) :
    (limaDescriptor env cwd platform).expectedChecksum
        = String.mk ((env.text (limaUrl platform ++ ".sha512sum")).data.takeWhile
            (fun c => !isWs c))
    ∧ (limaDescriptor env cwd platform).checksumAlgorithm = "sha512"
    ∧ (getLima env cwd platform).1.head?
        = some (.fetchText (limaUrl platform ++ ".sha512sum"))
    ∧ LimaEvent.fetchFile (limaDescriptor env cwd platform)
        ∈ (getLima env cwd platform).1
    ∧ (∀ u : String, LimaEvent.fetchText u ∈ (getLima env cwd platform).1 →
        u = limaUrl platform ++ ".sha512sum")
    ∧ (alpineLimaDescriptor env cwd arch platform).expectedChecksum
        = String.mk ((env.text (alpineLimaUrl arch ++ ".sha512sum")).data.takeWhile
            (fun c => !isWs c))
    ∧ (alpineLimaDescriptor env cwd arch platform).checksumAlgorithm = "sha512"
    ∧ (getAlpineLima env cwd arch platform).1
        = [.fetchText (alpineLimaUrl arch ++ ".sha512sum"),
           .fetchFile (alpineLimaDescriptor env cwd arch platform)]
    ∧ (∀ u : String, LimaEvent.fetchText u ∈ (getAlpineLima env cwd arch platform).1 →
        u = alpineLimaUrl arch ++ ".sha512sum") := by
  refine ⟨?_, rfl, ?_, ?_, ?_, ?_, rfl, rfl, ?_⟩
  · simpa [limaDescriptor] using
      jsSplitWs_headD (env.text (limaUrl platform ++ ".sha512sum"))
  · cases hdl : env.downloadResult (limaDescriptor env cwd platform) with
    | ok u => simp [getLima, hdl]
    | error e => simp [getLima, hdl]
  · cases hdl : env.downloadResult (limaDescriptor env cwd platform) with
    | ok u => simp [getLima, hdl]
    | error e => simp [getLima, hdl]
  · intro u hu
    cases hdl : env.downloadResult (limaDescriptor env cwd platform) with
    | ok v =>
      simp [getLima, hdl] at hu
      exact hu
    | error e =>
      simp [getLima, hdl] at hu
      exact hu
  · simpa [alpineLimaDescriptor] using
      jsSplitWs_headD (env.text (alpineLimaUrl arch ++ ".sha512sum"))
  · intro u hu
    simp [getAlpineLima] at hu
    exact hu

/-- C8 witness: with a manifest body "abc def", the expected checksum is
"abc", the algorithm is sha512, and the single manifest URL fetched for the
macOS lima tarball is the concrete companion URL. -/
theorem checksum_manifest_convention_witness :
    (limaDescriptor ⟨fun _ => "abc def", fun _ => .ok (), .exited (some 0) none⟩
        "wd" "macos").expectedChecksum = "abc"
    ∧ (limaDescriptor ⟨fun _ => "abc def", fun _ => .ok (), .exited (some 0) none⟩
        "wd" "macos").checksumAlgorithm = "sha512"
    ∧ ("https://github.com/rancher-sandbox/lima-and-qemu/releases/download/v1.23/lima-and-qemu.macos.tar.gz.sha512sum"
        = limaUrl "macos" ++ ".sha512sum") := by
  have h := checksum_manifest_convention
    ⟨fun _ => "abc def", fun _ => .ok (), .exited (some 0) none⟩ "wd" "macos" "x86_64"
  refine ⟨by rw [h.1]; rfl, h.2.1, ?_⟩
  exact h.2.2.2.2.1
    "https://github.com/rancher-sandbox/lima-and-qemu/releases/download/v1.23/lima-and-qemu.macos.tar.gz.sha512sum"
    (by decide)

/-- `Promise.all` over a list of JS arrays: arrays are not thenables, so
the aggregate fulfills at once, whatever the promises inside the arrays
do. -/
theorem promiseAll_arrays {ε : Type} (ls : List (List (Promise ε))) :
    promiseAll (ls.map JSVal.arr) = .fulfilled := by
  have hfm : (ls.map JSVal.arr).filterMap (fun x =>
      match x with
      | JSVal.prom (Promise.rejected e) => some e
      | _ => none) = [] := by
    rw [List.filterMap_eq_nil_iff]
    intro a ha
    obtain ⟨x, -, rfl⟩ := List.mem_map.mp ha
    rfl
  have hany : (ls.map JSVal.arr).any (fun x =>
      match x with
      | JSVal.prom Promise.pending => true
      | _ => false) = false := by
    rw [Bool.eq_false_iff]
    intro hc
    obtain ⟨x, hx, hpx⟩ := List.any_eq_true.mp hc
    obtain ⟨y, -, rfl⟩ := List.mem_map.mp hx
    simp at hpx
  rw [promiseAll, hfm, hany]
  rfl

/-- C10: `run()` fulfills once the per-platform arrays of download promises
are constructed — `Promise.all` is applied to an array of plain arrays, not
of promises — so it neither waits for `getLima`/`getAlpineLima` to settle
nor propagates any of their rejections, for every platform, M1 setting,
architecture, and every fate (even rejection) of the download promises. -/
theorem run_settles_without_awaiting_downloads {ε : Type} (env : RunEnv ε)
    (osPlatform : String) (envM1 : Option String) (procArch : String) :
    (run env osPlatform envM1 procArch).2 = .fulfilled := by
  simp only [run]
  exact promiseAll_arrays _

end RD
